import Mathlib

/-!
Verification of the memory pattern scanner and REPL of `process_mem_tool.cpp`.

The definitions below are a shallow embedding of the C++ source.  Machine
integers are modelled as `Nat` (all the quantities involved are non-negative
byte counts, offsets and identifiers); target-process memory is a `List Nat`
of byte values; fallible reads are modelled by an explicit success flag plus
the list of bytes actually read.  Helpers that live in `common.h` /
`common.cpp` (not part of the given sources) are modelled from the
specification and say so in their doc comments.
-/

/-- Modelled from the spec: `multiple_of_n` (from `common.h`, used at
`find_pattern` line 39 as `multiple_of_n(pattern_len, sizeof(__m128i))`)
rounds `x` up to the next multiple of `n`; the spec states
`overlap = ceil(pattern_len, 16)`, i.e. pattern length rounded up to a
16-byte multiple. -/
def multiple_of_n (x n : Nat) : Nat := ((x + n - 1) / n) * n

/-- The pattern occurs in `buf` at position `i`: the `pat.length` bytes of
`buf` starting at `i` exist and equal `pat`. -/
def occAt (buf pat : List Nat) (i : Nat) : Prop :=
  (buf.drop i).take pat.length = pat

instance occAtDecidable (buf pat : List Nat) (i : Nat) : Decidable (occAt buf pat i) :=
  inferInstanceAs (Decidable ((buf.drop i).take pat.length = pat))

/-- Modelled from the spec: `strstr_u8` (from `common.h`, called at
`find_pattern` line 142) is "any substring search that treats inputs as raw
bytes"; it returns the position of the first occurrence of the pattern that
lies wholly within the searched buffer, or none.  Patterns are literal byte
strings of length at least 1, so the empty pattern never matches. -/
def strstr_u8 (pat : List Nat) : List Nat → Option Nat
  | [] => none
  | b :: rest =>
    if 0 < pat.length ∧ pat.length ≤ (b :: rest).length then
      if (b :: rest).take pat.length = pat then some 0
      else (strstr_u8 pat rest).map (fun j => j + 1)
    else none

/-- The matching loop of `find_pattern` (lines 136-153): starting from the
front of the buffer, repeatedly run `strstr_u8` on the remaining suffix while
at least `pattern_len` bytes remain; record `base + position` for each hit
and resume one byte past the match start.  `fuel` bounds the recursion and is
instantiated with the buffer length, which suffices because every iteration
consumes at least one byte of the suffix. -/
def findMatchesAux (pat : List Nat) : Nat → List Nat → Nat → List Nat
  | 0, _, _ => []
  | fuel + 1, buf, base =>
    if pat.length ≤ buf.length then
      match strstr_u8 pat buf with
      | none => []
      | some j => (base + j) :: findMatchesAux pat fuel (buf.drop (j + 1)) (base + j + 1)
    else []

/-- All match positions the worker records for a buffer, offset by `base`
(the source records `ptr + buffer_offset`, line 148). -/
def findMatches (buf pat : List Nat) (base : Nat) : List Nat :=
  findMatchesAux pat buf.length buf base

/-- One work item of the block planner (`struct block`, lines 9-13).  The
source stores the absolute pointer `_p + bytes_offset` and a region-info
index; we record the offset `bytes_offset` from the region base (the region
base is re-added where absolute addresses are needed) and drop the info
index, which no claim consults. -/
structure block where
  off : Nat
  size : Nat
deriving DecidableEq, Repr

/-- The planning loop of `find_pattern` (lines 53-66).  `rs` is the mutable
`region_size`, `off` the running `bytes_offset`; while `rs` is nonzero a
block of `S + ov` bytes is emitted and `rs` drops by the stride `S`, until
the remainder is smaller than `S + ov`, which becomes the final block.
`fuel` bounds the recursion and is instantiated with the region size, which
suffices whenever the stride is positive. -/
def planBlocksAux (S ov : Nat) : Nat → Nat → Nat → List block
  | 0, _, _ => []
  | fuel + 1, rs, off =>
    if rs = 0 then []
    else if S + ov ≤ rs then
      { off := off, size := S + ov } :: planBlocksAux S ov fuel (rs - S) (off + S)
    else [{ off := off, size := rs }]

/-- The blocks planned for one committed region of `R` bytes with stride `S`
and overlap `ov`. -/
def planBlocks (S ov R : Nat) : List block := planBlocksAux S ov R R 0

/-- The half-open address range `[base + b.off, base + b.off + b.size)`
covered by a block of the region starting at absolute address `base`. -/
def blockRange (base : Nat) (b : block) : Finset Nat :=
  Finset.Ico (base + b.off) (base + b.off + b.size)

/-- What one worker iteration does to shared state once the read has
returned (lines 102-158): the recorded match addresses, the number of bytes
subtracted from `g_memory_usage_bytes`, and whether `g_cv.notify_all()` was
executed. -/
structure WorkerOutcome where
  matchList : List Nat
  releasedBytes : Nat
  notifiedWaiters : Bool
deriving DecidableEq, Repr

/-- The per-block tail of the worker loop of `find_pattern` (lines 102-158).
`ptr` is the block's target address, `bytesToRead` the requested size,
`res` the `ReadProcessMemory` success flag and `readBytes` the bytes actually
placed in the buffer (`bytes_read` many; fewer than `bytesToRead` on a short
read).  When `res` is false the worker subtracts `bytesToRead` and
`continue`s (lines 109-111 and 125-129), skipping both the match loop and the
`notify_all` at line 158; the `g_show_failed_readings` flag only changes what
is printed, not these effects.  When `res` is true the worker matches over
the bytes actually read, then subtracts and notifies. -/
def processBlock (pat : List Nat) (ptr bytesToRead : Nat) (res : Bool)
    (readBytes : List Nat) : WorkerOutcome :=
  if res then
    { matchList := findMatches readBytes pat ptr
      releasedBytes := bytesToRead
      notifiedWaiters := true }
  else
    { matchList := []
      releasedBytes := bytesToRead
      notifiedWaiters := false }

/-- The value of `g_memory_usage_bytes`: the sum of the block sizes currently
checked out by workers. -/
def inflightBytes (s : List Nat) : Nat := s.sum

/-- One transition of the memory-budget gate of `find_pattern`.  The state is
the multiset (as a list) of block sizes currently checked out.  `acquire`
embeds lines 91-100: a worker passes the gate exactly when
`g_memory_usage_bytes < max_memory_usage` holds, and then adds its block size
to the counter; `maxBlock` records that every block of a scan has size at
most `bytes_to_read_ideal = block_size + extra_chunk` (line 41).  `release`
embeds the subtraction at lines 110/128/156. -/
inductive GateStep (limit maxBlock : Nat) : List Nat → List Nat → Prop
  | acquire (b : Nat) (s : List Nat) :
      b ≤ maxBlock → inflightBytes s < limit → GateStep limit maxBlock s (b :: s)
  | release (b : Nat) (s t : List Nat) :
      GateStep limit maxBlock (s ++ b :: t) (s ++ t)

/-- Gate states reachable from the start of a scan
(`g_memory_usage_bytes = 0`, line 34). -/
def GateReachable (limit maxBlock : Nat) (s : List Nat) : Prop :=
  Relation.ReflTransGen (GateStep limit maxBlock) [] s

/-- The printing loop of the aggregator (lines 180-203): `prev` is
`prev_match`, initialised to `(uint64_t)(-1)`; a match equal to the
immediately previously printed one is skipped, every other match is printed
and becomes the new `prev`. -/
def aggregate (prev : Nat) : List Nat → List Nat
  | [] => []
  | m :: rest => if prev = m then aggregate prev rest else m :: aggregate m rest

/-- The full sequence of match addresses printed for one scan: the per-block
match lists are walked in block order (blocks with no matches only skip the
region header) and filtered through the `prev_match` comparison. -/
def printedMatches (ms : List (List Nat)) : List Nat :=
  aggregate (2 ^ 64 - 1) ms.flatten

/-- The per-block match lists produced for a single committed region whose
bytes are `mem`, at absolute base address `base`, assuming every read returns
in full: each planned block is read and matched by `processBlock`. -/
def scanRegion (S ov : Nat) (mem pat : List Nat) (base : Nat) : List (List Nat) :=
  (planBlocks S ov mem.length).map
    (fun b => (processBlock pat (base + b.off) b.size true ((mem.drop b.off).take b.size)).matchList)

/-- The command enumeration of the REPL (`input_command` from `common.h`);
only the constructors used by `process_mem_tool.cpp` are modelled. -/
inductive InputCommand where
  | c_help
  | c_search_pattern
  | c_list_pids
  | c_list_modules
  | c_list_threads
  | c_travers_heap
  | c_travers_heap_calc_entropy
  | c_travers_heap_blocks
  | c_continue
  | c_quit_program
  | c_not_set
deriving DecidableEq, Repr

/-- Modelled from the spec: `skip_to_args` (from `common.h`, called at
`parse_command` line 223) skips the command word and the separating blanks
and returns the argument portion, or none when there is no argument. -/
def skip_to_args (cmd : List Char) : Option (List Char) :=
  let args := (cmd.dropWhile (fun c => c != ' ')).dropWhile (fun c => c == ' ')
  if args.isEmpty then none else some args

/-- Modelled from the spec: the value of one digit character in the given
base, or none when the character is not a digit of that base. -/
def digitVal (base : Nat) (c : Char) : Option Nat :=
  let v :=
    if '0' ≤ c ∧ c ≤ '9' then some (c.toNat - '0'.toNat)
    else if 'a' ≤ c ∧ c ≤ 'f' then some (c.toNat - 'a'.toNat + 10)
    else if 'A' ≤ c ∧ c ≤ 'F' then some (c.toNat - 'A'.toNat + 10)
    else none
  match v with
  | some d => if d < base then some d else none
  | none => none

/-- Modelled from the spec: `strtoul` (C standard library, called at
`parse_command` line 230) parses the leading digits of the given base,
returning the parsed value and the number of characters consumed; it consumes
zero characters exactly when the input does not begin with a digit of the
base (then `end == args` in the source).  The skipping of leading whitespace,
signs and a `0x` prefix does not matter to the claims and is not modelled. -/
def strtoul (s : List Char) (base : Nat) : Nat × Nat :=
  match s with
  | [] => (0, 0)
  | c :: rest =>
    match digitVal base c with
    | none => (0, 0)
    | some d =>
      let p := strtoul rest base
      (d * base ^ p.2 + p.1, p.2 + 1)

/-- Modelled from the spec: `is_hex` (from `common.h`, called at
`parse_command` line 230) recognises a hexadecimal argument by a `0x` prefix
or by the presence of any hex-only digit. -/
def is_hex (s : List Char) : Bool :=
  (s.take 2 == ['0', 'x']) ||
    s.any (fun c => ('a' ≤ c && c ≤ 'f') || ('A' ≤ c && c ≤ 'F'))

/-- `parse_command` (lines 219-267) as a function of the current `ctx->pid`
and the command line (without the terminating NUL); it returns the selected
command together with the new `ctx->pid`.  The `p` branch quits the whole
program when `strtoul` consumed no characters (`args == end`, lines 231-233)
and leaves the pid unchanged; on a successful parse the pid is the parsed
value truncated to `DWORD`.  `cmd.get? k` models the C read `cmd[k]`: the
terminating NUL of the C string (compared against `0` at line 250) appears
here as `none`. -/
def parse_command (pid : Nat) (cmd : List Char) : InputCommand × Nat :=
  if cmd.get? 0 = some 'p' then
    match skip_to_args cmd with
    | none => (InputCommand.c_continue, pid)
    | some args =>
      let p := strtoul args (if is_hex args then 16 else 10)
      if p.2 = 0 then (InputCommand.c_quit_program, pid)
      else (InputCommand.c_continue, p.1 % 2 ^ 32)
  else if cmd.get? 0 = some 'l' then
    if cmd.get? 1 = some 'p' then (InputCommand.c_list_pids, pid)
    else if cmd.get? 1 = some 'M' then (InputCommand.c_list_modules, pid)
    else if cmd.get? 1 = some 't' then (InputCommand.c_list_threads, pid)
    else (InputCommand.c_continue, pid)
  else if cmd.get? 0 = some 't' ∧ cmd.get? 1 = some 'h' then
    if cmd.get? 2 = none then (InputCommand.c_travers_heap, pid)
    else if cmd.get? 2 = some 'e' then (InputCommand.c_travers_heap_calc_entropy, pid)
    else if cmd.get? 2 = some 'b' then (InputCommand.c_travers_heap_blocks, pid)
    else (InputCommand.c_continue, pid)
  else (InputCommand.c_continue, pid)

/-- One turn of the `run_process_inspection` loop (lines 337-351) after a
command has been parsed: `c_quit_program` makes the function return 0 (the
program's exit code); every other command either `continue`s or executes and
loops for another prompt. -/
def repl_step (cmd : InputCommand) : Option Nat :=
  match cmd with
  | InputCommand.c_quit_program => some 0
  | _ => none

/-- `MEM_COMMIT` page state constant. -/
def MEM_COMMIT : Nat := 0x1000

/-- `MEM_PRIVATE` page type constant. -/
def MEM_PRIVATE : Nat := 0x20000

/-- The fields of `MEMORY_BASIC_INFORMATION` consulted by
`get_thread_stack_base`. -/
structure MemInfo where
  State : Nat
  MemType : Nat
  BaseAddress : Nat
  RegionSize : Nat
deriving DecidableEq, Repr

/-- The `stack_info` record (lines 453-456). -/
structure stack_info where
  sp : Nat
  size : Nat
deriving DecidableEq, Repr

/-- One thread returned by the snapshot walk in `list_process_threads`,
together with the environment facts that decide its stack lookup: whether
`OpenThread` succeeds and the result of `VirtualQueryEx` at the thread's
stack pointer (none when the query fails). -/
structure ThreadEntry where
  th32OwnerProcessID : Nat
  th32ThreadID : Nat
  canOpenThread : Bool
  queryAtSp : Option MemInfo
deriving DecidableEq, Repr

/-- `get_thread_stack_base` (lines 458-479): `res` is written only when the
region query succeeds and the region at the stack pointer is a committed
private region; on every failure path the record is left untouched. -/
def get_thread_stack_base (query : Option MemInfo) (res : stack_info) : Bool × stack_info :=
  match query with
  | none => (false, res)
  | some info =>
    if info.State = MEM_COMMIT ∧ info.MemType = MEM_PRIVATE then
      (true, { sp := info.BaseAddress, size := info.RegionSize })
    else (false, res)

/-- The printing loop of `list_process_threads` (lines 512-529): one shared
`stack_info` record `si` (initialised to zero at line 484) is threaded
through all iterations; for every thread owned by the target the lookup is
attempted only when the thread can be opened, and the current contents of
`si` are then printed with the thread id regardless of the lookup outcome. -/
def list_process_threads (ownerPid : Nat) : stack_info → List ThreadEntry → List (Nat × Nat × Nat)
  | _, [] => []
  | si, t :: rest =>
    if t.th32OwnerProcessID = ownerPid then
      let si' := if t.canOpenThread then (get_thread_stack_base t.queryAtSp si).2 else si
      (t.th32ThreadID, si'.sp, si'.size) :: list_process_threads ownerPid si' rest
    else list_process_threads ownerPid si rest

/-- A thread's stack lookup succeeds: the thread can be opened, the region
query at its stack pointer succeeds, and the region is committed private. -/
def lookupSucceeds (t : ThreadEntry) : Bool :=
  t.canOpenThread &&
    match t.queryAtSp with
    | some info => decide (info.State = MEM_COMMIT) && decide (info.MemType = MEM_PRIVATE)
    | none => false

/-- The stack record a successful lookup of `t` would produce (`t.queryAtSp`
is necessarily `some` when `lookupSucceeds t`; the fallback is returned
otherwise). -/
def reportedStack (t : ThreadEntry) (fallback : stack_info) : stack_info :=
  match t.queryAtSp with
  | some info => { sp := info.BaseAddress, size := info.RegionSize }
  | none => fallback

/-- Follows the claim's words (the spec side of claim C10): the stack info of
the most recent owned thread in the list whose lookup succeeded, or the
starting value when none has succeeded. -/
def lastSuccessfulStack (ownerPid : Nat) : stack_info → List ThreadEntry → stack_info
  | si, [] => si
  | si, t :: rest =>
    lastSuccessfulStack ownerPid
      (if t.th32OwnerProcessID = ownerPid ∧ lookupSucceeds t then reportedStack t si else si)
      rest

/-- The number of threads in the list owned by the target process; the
position at which a given owned thread's line appears in the output of
`list_process_threads`. -/
def countOwned (ownerPid : Nat) (ts : List ThreadEntry) : Nat :=
  (ts.filter (fun t => t.th32OwnerProcessID == ownerPid)).length

/-- A concrete thread whose stack lookup succeeds: it can be opened and the
region at its stack pointer is committed private. -/
def goodThread : ThreadEntry where
  th32OwnerProcessID := 7
  th32ThreadID := 100
  canOpenThread := true
  queryAtSp := some { State := 0x1000, MemType := 0x20000
                      BaseAddress := 0x5000, RegionSize := 0x3000 }

/-- A concrete thread whose stack lookup fails: `OpenThread` fails, so
`get_thread_stack_base` is never called for it. -/
def badThread : ThreadEntry where
  th32OwnerProcessID := 7
  th32ThreadID := 101
  canOpenThread := false
  queryAtSp := none

/-! ## Helper lemmas: occurrences and the substring search -/

theorem multiple_of_n_le (x : Nat) : x ≤ multiple_of_n x 16 := by
  unfold multiple_of_n
  omega

theorem occ_take_len {buf pat : List Nat} {i : Nat} (h : occAt buf pat i) :
    pat.length ≤ buf.length - i := by
  have hl := congrArg List.length h
  simp only [List.length_take, List.length_drop] at hl
  omega

theorem occ_bound {buf pat : List Nat} {i : Nat} (hp : 0 < pat.length)
    (h : occAt buf pat i) : i + pat.length ≤ buf.length := by
  have := occ_take_len h
  omega

theorem occ_nil {pat : List Nat} {i : Nat} (hp : 0 < pat.length) : ¬ occAt [] pat i := by
  intro h
  have := occ_take_len h
  simp only [List.length_nil] at this
  omega

theorem occ_succ_cons {b : Nat} {rest pat : List Nat} {i : Nat} :
    occAt (b :: rest) pat (i + 1) ↔ occAt rest pat i := by
  simp [occAt]

theorem strstr_some_occ (pat : List Nat) : ∀ (buf : List Nat) (j : Nat),
    strstr_u8 pat buf = some j → occAt buf pat j := by
  intro buf
  induction buf with
  | nil => intro j h; simp [strstr_u8] at h
  | cons b rest ih =>
    intro j h
    rw [strstr_u8] at h
    split at h
    · split at h
      · cases h
        simpa [occAt] using ‹(b :: rest).take pat.length = pat›
      · rcases Option.map_eq_some'.mp h with ⟨j', hj', rfl⟩
        exact occ_succ_cons.mpr (ih j' hj')
    · exact absurd h (by simp)

theorem strstr_complete (pat : List Nat) : ∀ (buf : List Nat) (i : Nat),
    0 < pat.length → occAt buf pat i → ∃ j, strstr_u8 pat buf = some j ∧ j ≤ i := by
  intro buf
  induction buf with
  | nil => intro i hp h; exact absurd h (occ_nil hp)
  | cons b rest ih =>
    intro i hp h
    have hlen : pat.length ≤ rest.length + 1 := by
      have := occ_take_len h
      simp only [List.length_cons] at this
      omega
    by_cases hw : (b :: rest).take pat.length = pat
    · exact ⟨0, by rw [strstr_u8]; simp [hp, hlen, hw], Nat.zero_le i⟩
    · cases i with
      | zero => exact absurd (by simpa [occAt] using h) hw
      | succ i' =>
        obtain ⟨j', hj', hle⟩ := ih i' hp (occ_succ_cons.mp h)
        exact ⟨j' + 1, by rw [strstr_u8]; simp [hp, hlen, hw, hj'], by omega⟩

/-! ## Helper lemmas: the matching loop -/

theorem findMatchesAux_complete (pat : List Nat) (hp : 0 < pat.length) :
    ∀ (fuel : Nat) (buf : List Nat) (base i : Nat), buf.length ≤ fuel →
      occAt buf pat i → (base + i) ∈ findMatchesAux pat fuel buf base := by
  intro fuel
  induction fuel with
  | zero =>
    intro buf base i hf hocc
    have := occ_take_len hocc
    omega
  | succ fuel ih =>
    intro buf base i hf hocc
    have hb : i + pat.length ≤ buf.length := occ_bound hp hocc
    have hguard : pat.length ≤ buf.length := by omega
    obtain ⟨j, hj, hji⟩ := strstr_complete pat buf i hp hocc
    rw [findMatchesAux, if_pos hguard, hj]
    rcases eq_or_lt_of_le hji with rfl | hlt
    · exact List.mem_cons_self _ _
    · apply List.mem_cons_of_mem
      have hocc' : occAt (buf.drop (j + 1)) pat (i - (j + 1)) := by
        unfold occAt
        rw [List.drop_drop]
        have harith : j + 1 + (i - (j + 1)) = i := by omega
        rw [harith]
        exact hocc
      have hlen' : (buf.drop (j + 1)).length ≤ fuel := by
        simp only [List.length_drop]
        omega
      have hmem := ih (buf.drop (j + 1)) (base + j + 1) (i - (j + 1)) hlen' hocc'
      have harith2 : base + j + 1 + (i - (j + 1)) = base + i := by omega
      rwa [harith2] at hmem

theorem findMatchesAux_sound (pat : List Nat) :
    ∀ (fuel : Nat) (buf : List Nat) (base a : Nat),
      a ∈ findMatchesAux pat fuel buf base → ∃ i, a = base + i ∧ occAt buf pat i := by
  intro fuel
  induction fuel with
  | zero => intro buf base a ha; simp [findMatchesAux] at ha
  | succ fuel ih =>
    intro buf base a ha
    rw [findMatchesAux] at ha
    split at ha
    · split at ha
      · simp at ha
      · rename_i j hj
        rcases List.mem_cons.mp ha with rfl | hmem
        · exact ⟨j, rfl, strstr_some_occ pat buf j hj⟩
        · obtain ⟨i', rfl, hocc⟩ := ih _ _ _ hmem
          refine ⟨j + 1 + i', by omega, ?_⟩
          unfold occAt at hocc ⊢
          rwa [List.drop_drop] at hocc
    · simp at ha

theorem findMatches_complete {buf pat : List Nat} (base : Nat) {i : Nat}
    (hp : 0 < pat.length) (h : occAt buf pat i) : (base + i) ∈ findMatches buf pat base :=
  findMatchesAux_complete pat hp buf.length buf base i le_rfl h

theorem findMatches_sound {buf pat : List Nat} {base a : Nat}
    (h : a ∈ findMatches buf pat base) : ∃ i, a = base + i ∧ occAt buf pat i :=
  findMatchesAux_sound pat buf.length buf base a h

/-! ## Helper lemmas: the block planner -/

theorem planBlocksAux_zero (S ov : Nat) : ∀ (fuel off : Nat),
    planBlocksAux S ov fuel 0 off = [] := by
  intro fuel off
  cases fuel with
  | zero => rfl
  | succ fuel => rw [planBlocksAux]; simp

theorem planBlocksAux_head (S ov : Nat) : ∀ (fuel rs off : Nat), rs ≠ 0 → rs ≤ fuel →
    ∃ sz rest, planBlocksAux S ov fuel rs off = { off := off, size := sz } :: rest ∧
      (sz = S + ov ∨ sz = rs) := by
  intro fuel rs off hrs hle
  cases fuel with
  | zero => omega
  | succ fuel =>
    rw [planBlocksAux]
    rw [if_neg hrs]
    by_cases hg : S + ov ≤ rs
    · exact ⟨S + ov, _, by rw [if_pos hg], Or.inl rfl⟩
    · exact ⟨rs, [], by rw [if_neg hg], Or.inr rfl⟩

theorem planBlocksAux_fit (S ov plen : Nat) (hS : 1 ≤ S) (hplen : 1 ≤ plen)
    (hov : plen ≤ ov) : ∀ (fuel rs off a : Nat), a + plen ≤ rs → rs ≤ fuel →
    ∃ b, b ∈ planBlocksAux S ov fuel rs off ∧
      b.off ≤ off + a ∧ off + a + plen ≤ b.off + b.size := by
  intro fuel
  induction fuel with
  | zero => intro rs off a ha hf; omega
  | succ fuel ih =>
    intro rs off a ha hf
    have hrs : rs ≠ 0 := by omega
    rw [planBlocksAux, if_neg hrs]
    by_cases hg : S + ov ≤ rs
    · rw [if_pos hg]
      by_cases hfit : a + plen ≤ S + ov
      · exact ⟨{ off := off, size := S + ov }, List.mem_cons_self _ _,
          by dsimp only; omega, by dsimp only; omega⟩
      · have hSa : S ≤ a := by omega
        obtain ⟨b, hmem, h1, h2⟩ := ih (rs - S) (off + S) (a - S) (by omega) (by omega)
        refine ⟨b, List.mem_cons_of_mem _ hmem, by omega, by omega⟩
    · rw [if_neg hg]
      exact ⟨{ off := off, size := rs }, List.mem_cons_self _ _,
        by dsimp only; omega, by dsimp only; omega⟩

theorem planBlocksAux_chain (S ov base : Nat) (hS : 1 ≤ S) (hov : 1 ≤ ov) :
    ∀ (fuel rs off : Nat), rs ≤ fuel →
    List.Chain' (fun b1 b2 => (blockRange base b1 ∩ blockRange base b2).card = ov)
      (planBlocksAux S ov fuel rs off) := by
  intro fuel
  induction fuel with
  | zero => intro rs off hf; simp [planBlocksAux]
  | succ fuel ih =>
    intro rs off hf
    rw [planBlocksAux]
    by_cases hrs : rs = 0
    · simp [hrs]
    · rw [if_neg hrs]
      by_cases hg : S + ov ≤ rs
      · rw [if_pos hg]
        rw [List.chain'_cons']
        constructor
        · intro b2 hb2
          by_cases hz : rs - S = 0
          · rw [hz, planBlocksAux_zero] at hb2
            simp at hb2
          · obtain ⟨sz, rest, heq, hsz⟩ :=
              planBlocksAux_head S ov fuel (rs - S) (off + S) hz (by omega)
            rw [heq] at hb2
            simp only [List.head?_cons, Option.mem_def, Option.some.injEq] at hb2
            subst hb2
            have hovsz : ov ≤ sz := by omega
            unfold blockRange
            rw [Finset.Ico_inter_Ico, Nat.card_Ico]
            have hmax : max (base + off) (base + (off + S)) = base + (off + S) :=
              max_eq_right (by omega)
            have hmin : min (base + off + (S + ov)) (base + (off + S) + sz) =
                base + off + (S + ov) := min_eq_left (by omega)
            rw [hmax, hmin]
            omega
        · exact ih (rs - S) (off + S) (by omega)
      · rw [if_neg hg]
        simp

/-! ## Helper lemmas: slicing a region into a block buffer -/

theorem occ_slice {mem pat : List Nat} {a off size : Nat}
    (hocc : occAt mem pat a) (h1 : off ≤ a) (h2 : a + pat.length ≤ off + size) :
    occAt ((mem.drop off).take size) pat (a - off) := by
  unfold occAt at hocc ⊢
  rw [List.drop_take, List.drop_drop]
  have ha : off + (a - off) = a := by omega
  rw [ha, List.take_take]
  have hmin : min pat.length (size - (a - off)) = pat.length := min_eq_left (by omega)
  rw [hmin]
  exact hocc

/-! ## Helper lemmas: the aggregator's consecutive-duplicate filter -/

theorem aggregate_chain (l : List Nat) : ∀ prev,
    List.Chain' (fun a b => a ≠ b) (aggregate prev l) ∧
      ∀ x ∈ (aggregate prev l).head?, x ≠ prev := by
  induction l with
  | nil => intro prev; simp [aggregate]
  | cons m rest ih =>
    intro prev
    rw [aggregate]
    by_cases h : prev = m
    · rw [if_pos h]
      subst h
      exact ih prev
    · rw [if_neg h]
      refine ⟨List.chain'_cons'.mpr ⟨?_, (ih m).1⟩, ?_⟩
      · intro y hy
        exact fun hmy => (ih m).2 y hy hmy.symm
      · simp only [List.head?_cons, Option.mem_def, Option.some.injEq]
        intro x hx
        subst hx
        exact fun hmp => h hmp.symm

/-! ## Helper lemmas: the thread listing -/

theorem thread_si_update (t : ThreadEntry) (si : stack_info) :
    (if t.canOpenThread then (get_thread_stack_base t.queryAtSp si).2 else si) =
      (if lookupSucceeds t then reportedStack t si else si) := by
  by_cases hc : t.canOpenThread
  · cases hq : t.queryAtSp with
    | none => simp [hc, hq, lookupSucceeds, get_thread_stack_base]
    | some info =>
      by_cases hcond : info.State = MEM_COMMIT ∧ info.MemType = MEM_PRIVATE
      · simp [hc, hq, lookupSucceeds, get_thread_stack_base, reportedStack,
          hcond.1, hcond.2]
      · simp only [hc, hq, lookupSucceeds, get_thread_stack_base, if_true]
        rw [if_neg hcond]
        have hb : ¬ ((decide (info.State = MEM_COMMIT) &&
            decide (info.MemType = MEM_PRIVATE)) = true) := by
          simpa [Bool.and_eq_true, decide_eq_true_eq] using hcond
        simp [hb]
  · simp [hc, lookupSucceeds]

theorem list_threads_stale (ownerPid : Nat) (t : ThreadEntry) (post : List ThreadEntry)
    (howned : t.th32OwnerProcessID = ownerPid) (hfail : lookupSucceeds t = false) :
    ∀ (pre : List ThreadEntry) (si : stack_info),
      (list_process_threads ownerPid si (pre ++ t :: post)).get? (countOwned ownerPid pre) =
        some (t.th32ThreadID, (lastSuccessfulStack ownerPid si pre).sp,
          (lastSuccessfulStack ownerPid si pre).size) := by
  intro pre
  induction pre with
  | nil =>
    intro si
    simp only [List.nil_append, countOwned, List.filter_nil, List.length_nil]
    rw [list_process_threads, if_pos howned, thread_si_update, hfail]
    simp [lastSuccessfulStack]
  | cons p pre' ih =>
    intro si
    rw [List.cons_append, list_process_threads]
    by_cases hp : p.th32OwnerProcessID = ownerPid
    · rw [if_pos hp]
      have hcount : countOwned ownerPid (p :: pre') = countOwned ownerPid pre' + 1 := by
        simp [countOwned, hp]
      rw [hcount, thread_si_update]
      simp only [List.get?_cons_succ]
      rw [lastSuccessfulStack]
      have harg : (if p.th32OwnerProcessID = ownerPid ∧ lookupSucceeds p then
          reportedStack p si else si) =
          (if lookupSucceeds p then reportedStack p si else si) := by
        by_cases hs : lookupSucceeds p
        · rw [if_pos ⟨hp, hs⟩, if_pos hs]
        · rw [if_neg (fun hand => hs hand.2), if_neg hs]
      rw [harg]
      exact ih _
    · rw [if_neg hp]
      have hcount : countOwned ownerPid (p :: pre') = countOwned ownerPid pre' := by
        simp [countOwned, hp]
      rw [hcount, lastSuccessfulStack]
      have harg : (if p.th32OwnerProcessID = ownerPid ∧ lookupSucceeds p then
          reportedStack p si else si) = si := by
        rw [if_neg (fun hand => hp hand.1)]
      rw [harg]
      exact ih si

/-! ## Claim theorems -/

/-- Claim C1, as stated, is false at a concrete input: with budget 10 and a
planned block of 20 bytes, the gate state holding 20 in-flight bytes is
reachable from the start of a scan (the guard at line 94 only requires
`used < limit`, so the admission predicate `used + block_size ≤ limit` of the
claim is not what the code checks), and 20 exceeds the budget. -/
theorem c1_counterexample : GateReachable 10 20 [20] ∧ 10 < inflightBytes [20] :=
  ⟨Relation.ReflTransGen.single (GateStep.acquire 20 [] (by decide) (by decide)),
    by decide⟩

/-- Claim C1 (amended): a worker is admitted only when `used < limit`
(strictly, the counter check of lines 94-95), and on admission its block size
is added under the mutex; consequently the in-flight sum may overshoot the
budget, and the invariant that actually holds in every reachable gate state
is `used < limit + maxBlock`, where `maxBlock` bounds every block size of the
scan. -/
theorem c1_amended_gate_bound (limit maxBlock : Nat) (s : List Nat) (hpos : 0 < limit)
    (h : GateReachable limit maxBlock s) : inflightBytes s < limit + maxBlock := by
  induction h with
  | refl => simp only [inflightBytes, List.sum_nil]; omega
  | tail hsteps hstep ih =>
    cases hstep with
    | acquire b s hb hsum =>
      simp only [inflightBytes, List.sum_cons] at *
      omega
    | release b s t =>
      simp only [inflightBytes, List.sum_append, List.sum_cons] at *
      omega

/-- Witness for `c1_amended_gate_bound` at budget 10, block bound 20 and the
reachable state holding one 20-byte block. -/
theorem c1_amended_gate_bound_witness : inflightBytes [20] < 10 + 20 :=
  c1_amended_gate_bound 10 20 [20] (by decide)
    (Relation.ReflTransGen.single (GateStep.acquire 20 [] (by decide) (by decide)))

/-- Claim C2, as stated, is false at a concrete input: scanning a 22-byte
region of `0x41` bytes for the pattern `AA` with stride 4 (so two blocks that
overlap in 16 bytes, which contain several occurrences) makes the aggregator
print the addresses 4 through 18 twice — comparing with the immediately
previous printed address does not eliminate cross-block duplicates when more
than one occurrence falls inside one overlap region. -/
theorem c2_counterexample :
    ¬ (printedMatches
        (scanRegion 4 (multiple_of_n 2 16) (List.replicate 22 65) [65, 65] 0)).Nodup := by
  decide

/-- Claim C2 (amended): the aggregator suppresses exactly consecutive
duplicates — the printed address sequence never contains the same address
twice in a row — which eliminates a cross-block duplicate only when it is
printed immediately after its first occurrence (as with a single occurrence
inside the overlap); with two or more occurrences inside one overlap region
duplicates survive. -/
theorem c2_amended_no_consecutive_dup (ms : List (List Nat)) :
    List.Chain' (fun a b => a ≠ b) (printedMatches ms) :=
  (aggregate_chain ms.flatten (2 ^ 64 - 1)).1

/-- Claim C3: for every committed region whose size is at least the pattern
length and every position at which the pattern occurs in the region, the
occurrence lies entirely inside at least one planned block (blocks of size
`S + overlap` at stride `S`, overlap `pattern_len` rounded up to a 16-byte
multiple), and — every read returning in full — the worker for that block
records the match address `base + a`. -/
theorem c3_match_in_some_block (S : Nat) (mem pat : List Nat) (a base : Nat)
    (hS : 1 ≤ S) (hp : 1 ≤ pat.length) (_hR : pat.length ≤ mem.length)
    (hocc : occAt mem pat a) :
    ∃ b, b ∈ planBlocks S (multiple_of_n pat.length 16) mem.length ∧
      b.off ≤ a ∧ a + pat.length ≤ b.off + b.size ∧
      (base + a) ∈ (processBlock pat (base + b.off) b.size true
        ((mem.drop b.off).take b.size)).matchList := by
  have hov : pat.length ≤ multiple_of_n pat.length 16 := multiple_of_n_le _
  have ha : a + pat.length ≤ mem.length := occ_bound hp hocc
  obtain ⟨b, hmem, h1, h2⟩ := planBlocksAux_fit S (multiple_of_n pat.length 16)
    pat.length hS hp hov mem.length mem.length 0 a ha le_rfl
  rw [Nat.zero_add] at h1 h2
  refine ⟨b, hmem, h1, h2, ?_⟩
  have hocc' : occAt ((mem.drop b.off).take b.size) pat (a - b.off) :=
    occ_slice hocc h1 h2
  have hmem2 := findMatches_complete (base + b.off) hp hocc'
  have harith : base + b.off + (a - b.off) = base + a := by omega
  rw [harith] at hmem2
  simpa [processBlock] using hmem2

/-- Witness for `c3_match_in_some_block`: the pattern `[66, 67]` occurring at
position 2 of the 4-byte region `[66, 67, 66, 67]` is recorded by the worker
of some planned block, at target address `7 + 2`. -/
theorem c3_match_in_some_block_witness :
    ∃ b, b ∈ planBlocks 4 (multiple_of_n ([66, 67] : List Nat).length 16)
        ([66, 67, 66, 67] : List Nat).length ∧
      b.off ≤ 2 ∧ 2 + ([66, 67] : List Nat).length ≤ b.off + b.size ∧
      (7 + 2) ∈ (processBlock [66, 67] (7 + b.off) b.size true
        ((([66, 67, 66, 67] : List Nat).drop b.off).take b.size)).matchList :=
  c3_match_in_some_block 4 [66, 67, 66, 67] [66, 67] 2 7 (by decide) (by decide)
    (by decide) (by decide)

/-- Claim C4: for every region retained by the enumerator, any two
consecutive planned blocks have address ranges whose intersection has length
exactly `overlap = pattern_len` rounded up to a 16-byte multiple, the final
(possibly smaller) block included. -/
theorem c4_adjacent_blocks_overlap (S plen R base : Nat) (hS : 1 ≤ S)
    (hp : 1 ≤ plen) (_hR : plen ≤ R) :
    List.Chain' (fun b1 b2 => (blockRange base b1 ∩ blockRange base b2).card =
      multiple_of_n plen 16) (planBlocks S (multiple_of_n plen 16) R) :=
  planBlocksAux_chain S (multiple_of_n plen 16) base hS
    (le_trans hp (multiple_of_n_le plen)) R R 0 le_rfl

/-- Witness for `c4_adjacent_blocks_overlap` at stride 4, pattern length 2
and a 22-byte region based at address 100. -/
theorem c4_adjacent_blocks_overlap_witness :
    List.Chain' (fun b1 b2 => (blockRange 100 b1 ∩ blockRange 100 b2).card =
      multiple_of_n 2 16) (planBlocks 4 (multiple_of_n 2 16) 22) :=
  c4_adjacent_blocks_overlap 4 2 22 100 (by decide) (by decide) (by decide)

/-- Claim C5 names a code bug: on a hard read failure (`ReadProcessMemory`
returning false) the worker subtracts the block size from the in-flight
counter but `continue`s past the `g_cv.notify_all()` at line 158 (lines
109-111 and 125-129), so this completion path does not signal the waiters,
contrary to the claim that no completion path skips the signal. -/
theorem c5_hard_failure_skips_notify :
    (processBlock [65] 0 8 false []).notifiedWaiters = false ∧
      (processBlock [65] 0 8 false []).releasedBytes = 8 := by
  decide

/-- Claim C6, as stated, is false at a concrete input: with stride 4 and
pattern length 2 a 40-byte region is planned into blocks of size
`S + overlap = 20`; with budget 10 no scan-entry check exists and the
oversized block is simply admitted by the gate from the empty starting state
(after which the worker proceeds to read it), instead of the scan being
rejected before any worker runs. -/
theorem c6_counterexample :
    block.mk 0 20 ∈ planBlocks 4 (multiple_of_n 2 16) 40 ∧
      GateReachable 10 20 [20] ∧ 10 < inflightBytes [20] :=
  ⟨by decide,
    Relation.ReflTransGen.single (GateStep.acquire 20 [] (by decide) (by decide)),
    by decide⟩

/-- Claim C6 (amended): the scan performs no entry check of the planned block
size against the budget; because the gate's guard only requires the current
usage to be below the limit, a block of any size — oversized ones included —
is admitted from the scan's empty starting state, so the scan proceeds (and,
in particular, the gate does not deadlock on an oversized block). -/
theorem c6_amended_no_entry_check (limit maxBlock b : Nat) (hpos : 0 < limit)
    (hb : b ≤ maxBlock) : GateReachable limit maxBlock [b] :=
  Relation.ReflTransGen.single (GateStep.acquire b [] hb
    (by simpa [inflightBytes] using hpos))

/-- Witness for `c6_amended_no_entry_check`: a 30-byte block passes a
12-byte budget gate from the start of a scan. -/
theorem c6_amended_no_entry_check_witness : GateReachable 12 30 [30] :=
  c6_amended_no_entry_check 12 30 30 (by decide) (by decide)

/-- Claim C7, as stated, is false at a concrete input: a short read (2 bytes
returned of 8 requested, success flag true) still contributes matches — the
match loop runs over the prefix actually read and records the occurrence at
offset 0 — contradicting that a block whose read ends in a per-block read
error contributes no matches. -/
theorem c7_counterexample :
    ([65, 65] : List Nat).length ≠ 8 ∧
      (processBlock [65, 65] 0 8 true [65, 65]).matchList = [0] := by
  decide

/-- Claim C7 (amended): every completion path releases the full requested
block size from the budget; a hard failure contributes no matches; a short
read is matched over the prefix actually read, so every address it records
lies entirely within the bytes actually read (and the scan is never aborted
nor the read retried — the worker function returns normally on every
outcome). -/
theorem c7_amended_read_errors (pat readBytes : List Nat) (ptr n : Nat) (res : Bool)
    (hp : 0 < pat.length) :
    (processBlock pat ptr n res readBytes).releasedBytes = n ∧
      (res = false → (processBlock pat ptr n res readBytes).matchList = []) ∧
      (∀ a ∈ (processBlock pat ptr n res readBytes).matchList,
        ptr ≤ a ∧ a + pat.length ≤ ptr + readBytes.length) := by
  cases res with
  | false => simp [processBlock]
  | true =>
    refine ⟨by simp [processBlock], by simp, ?_⟩
    intro a ha
    simp only [processBlock, if_pos] at ha
    obtain ⟨i, rfl, hocc⟩ := findMatches_sound ha
    have hb := occ_bound hp hocc
    constructor
    · omega
    · omega

/-- Witness for `c7_amended_read_errors`: a hard-failing block records no
matches. -/
theorem c7_amended_read_errors_witness :
    (processBlock [65] 5 8 false []).matchList = [] :=
  (c7_amended_read_errors [65] [] 5 8 false (by decide)).2.1 rfl

/-- Claim C8: over the fully read buffer `AAAA` the pattern `AA` is recorded
exactly at offsets 0, 1 and 2; and in general the matching loop, resuming one
byte past each match start, reports every (also self-overlapping) occurrence
of the pattern. -/
theorem c8_self_overlap :
    findMatches [65, 65, 65, 65] [65, 65] 0 = [0, 1, 2] ∧
      ∀ (buf pat : List Nat) (i : Nat), 0 < pat.length → occAt buf pat i →
        i ∈ findMatches buf pat 0 := by
  refine ⟨by decide, ?_⟩
  intro buf pat i hp hocc
  simpa using findMatches_complete 0 hp hocc

/-- Witness for `c8_self_overlap`: the occurrence of `AA` at offset 1 of
`AAA` is reported. -/
theorem c8_self_overlap_witness : (1 : Nat) ∈ findMatches [65, 65, 65] [65, 65] 0 :=
  c8_self_overlap.2 [65, 65, 65] [65, 65] 1 (by decide) (by decide)

/-- Claim C9: when the argument of the `p` command cannot be parsed as a
number at all (`strtoul` consumes no characters), `parse_command` returns
`c_quit_program` with the previously selected pid unchanged, and the REPL
loop thereupon returns exit code 0 — the same exit code `c_quit_program`
produces for a normal quit. -/
theorem c9_invalid_pid_quits (pid : Nat) (rest args : List Char)
    (hargs : skip_to_args ('p' :: rest) = some args)
    (hparse : (strtoul args (if is_hex args then 16 else 10)).2 = 0) :
    parse_command pid ('p' :: rest) = (InputCommand.c_quit_program, pid) ∧
      repl_step (parse_command pid ('p' :: rest)).1 = some 0 ∧
      repl_step InputCommand.c_quit_program = some 0 := by
  have hmain : parse_command pid ('p' :: rest) = (InputCommand.c_quit_program, pid) := by
    unfold parse_command
    rw [List.get?_cons_zero, if_pos rfl, hargs]
    simp only [hparse, if_pos]
  exact ⟨hmain, by rw [hmain]; rfl, rfl⟩

/-- Witness for `c9_invalid_pid_quits`: the command line `p zzz` quits the
program with exit code 0, leaving the selected pid 1234 unchanged. -/
theorem c9_invalid_pid_quits_witness :
    parse_command 1234 ['p', ' ', 'z', 'z', 'z'] = (InputCommand.c_quit_program, 1234) ∧
      repl_step (parse_command 1234 ['p', ' ', 'z', 'z', 'z']).1 = some 0 ∧
      repl_step InputCommand.c_quit_program = some 0 :=
  c9_invalid_pid_quits 1234 [' ', 'z', 'z', 'z'] ['z', 'z', 'z'] (by decide) (by decide)

/-- Claim C10: the shared `stack_info` record is threaded through the thread
listing and never reset, so the line printed for any owned thread whose stack
lookup fails shows the stack of the most recent earlier owned thread whose
lookup succeeded — or zero, the initial value, when none has. -/
theorem c10_stale_stack_info (ownerPid : Nat) (pre : List ThreadEntry)
    (t : ThreadEntry) (post : List ThreadEntry)
    (howned : t.th32OwnerProcessID = ownerPid) (hfail : lookupSucceeds t = false) :
    (list_process_threads ownerPid { sp := 0, size := 0 } (pre ++ t :: post)).get?
        (countOwned ownerPid pre) =
      some (t.th32ThreadID, (lastSuccessfulStack ownerPid { sp := 0, size := 0 } pre).sp,
        (lastSuccessfulStack ownerPid { sp := 0, size := 0 } pre).size) :=
  list_threads_stale ownerPid t post howned hfail pre _

/-- Witness for `c10_stale_stack_info`: thread 101 cannot be opened, so its
printed line reuses the stack of thread 100, the most recent thread whose
lookup succeeded. -/
theorem c10_stale_stack_info_witness :
    (list_process_threads 7 { sp := 0, size := 0 } (goodThread :: badThread :: [])).get?
        (countOwned 7 [goodThread]) =
      some (101, (lastSuccessfulStack 7 { sp := 0, size := 0 } [goodThread]).sp,
        (lastSuccessfulStack 7 { sp := 0, size := 0 } [goodThread]).size) :=
  c10_stale_stack_info 7 [goodThread] badThread [] rfl rfl
